import Mathlib

/-!
Verification of the tabular data-cleaning and aggregation core of the
Streamlit_ERP dashboard (src/sales.py, src/bc_products.py,
src/fixed_sales_dashboard.py, src/integrated_module.py).

The pandas dataframes are shallowly embedded: a column is a `List` of
`Option` cells (`none` = NaN/null), numbers are exact rationals `ℚ`,
and every dataframe operation used by the claims (group-wise forward
fill, groupby aggregation, left merge, elementwise coercion) is
translated into an executable Lean function on lists.
-/

/-- A spreadsheet cell value as it appears in a loaded dataframe:
either a text cell or a numeric cell.  `Option Val` represents a
nullable cell (with `none` playing the role of NaN/NaT). -/
inductive Val where
  | str (s : String)
  | num (q : ℚ)
deriving DecidableEq, Repr

/-- The order-level columns forward-filled by `fill_order_info`
(src/sales.py lines 242-244). -/
def order_columns : List String :=
  ["銷貨單號", "訂單單號", "銷貨日期", "客戶代號", "客戶名稱", "部門代號", "部門名稱",
   "發票號碼", "未稅小計", "營業稅", "折讓金額", "稅前折價", "總計金額", "實收總額",
   "成本總額", "毛利", "毛利率"]

/-- Group-wise forward fill of one column, exactly as `fill_order_info`
does it for each order-level column when the `銷貨單號` column is present
(src/sales.py lines 253-268): `group_id = (~銷貨單號.isna()).cumsum()`
followed by `groupby(group_id)[col].transform(ffill)`.  A new group
starts at every row whose order identifier (`oids`) is non-null, so the
forward-fill carry is reset there; within a group each null cell takes
the most recent non-null cell of the group.  `carry` is the value being
carried into the remaining rows (`none` at the start).  If `oids` is
shorter than `vals` the missing identifiers are treated as null; on a
rectangular dataframe the two lists always have equal length. -/
def ffillGrouped {α β : Type} : Option β → List (Option α) → List (Option β) → List (Option β)
  | _, _, [] => []
  | carry, oids, v :: vs =>
    let c := if (oids.headD none).isSome then none else carry
    let w := match v with
      | some x => some x
      | none => c
    w :: ffillGrouped w oids.tail vs

/-- Plain (ungrouped) forward fill of one column, as used by
`fill_order_info` when the `銷貨單號` column is absent
(src/sales.py lines 269-272): `df[col].ffill()`. -/
def ffillPlain {β : Type} : Option β → List (Option β) → List (Option β)
  | _, [] => []
  | carry, v :: vs =>
    let w := match v with
      | some x => some x
      | none => carry
    w :: ffillPlain w vs

/-- The forward-fill carry left over after processing a column prefix:
mirrors the recursion of `ffillGrouped`. -/
def ffillCarry {α β : Type} : Option β → List (Option α) → List (Option β) → Option β
  | carry, _, [] => carry
  | carry, oids, v :: vs =>
    ffillCarry (match v with
      | some x => some x
      | none => if (oids.headD none).isSome then none else carry) oids.tail vs

/-- The literal statement of the forward-fill claim for one order-level
column: after `fill_order_info`, every row whose order identifier is
null holds, in that column, the value of the nearest preceding row
whose order identifier is non-null. -/
def forwardFillClaim (oids vals : List (Option String)) : Prop :=
  ∀ i, i < vals.length → oids.getD i none = none →
    ∀ j, j < i → (oids.getD j none).isSome →
      (∀ k, k < i → j < k → oids.getD k none = none) →
      (ffillGrouped none oids vals).getD i none = vals.getD j none

/-- The most recent non-null cell of a window of a column, reading top
to bottom and starting from carry `c`: the reference function of the
amended forward-fill claim. -/
def lastSomeFrom {β : Type} (c : Option β) (l : List (Option β)) : Option β :=
  l.foldl (fun acc v =>
    match v with
    | some x => some x
    | none => acc) c

/-- The most recent non-null cell of a window of a column (`none` when
the window is all null). -/
def lastSome {β : Type} (l : List (Option β)) : Option β :=
  lastSomeFrom none l

/-- A loaded dataframe for the purposes of `fill_order_info`: named
columns of nullable cells. -/
structure Table where
  cols : List (String × List (Option Val))
deriving DecidableEq

/-- Column lookup (`df[name]`), first matching column. -/
def getCol (t : Table) (name : String) : Option (List (Option Val)) :=
  (t.cols.find? (fun c => c.1 = name)).map (fun c => c.2)

/-- Model of `fill_order_info` (src/sales.py lines 231-286).  It returns
a new table (the source operates on `df.copy()`, so the argument is
never mutated — inherent in this functional embedding).  Every
order-level column present in the input is forward-filled group-wise
using the `銷貨單號` column to delimit groups; if `銷貨單號` is absent every
order-level column is forward-filled unconditionally.  All other
columns are returned untouched.  The final dtype-restoration step of
the source (`astype` back to the original dtype) is value-preserving
here because filled cells always come from the same column, so it is
not modelled. -/
def fill_order_info (t : Table) : Table :=
  match getCol t "銷貨單號" with
  | some oids =>
    ⟨t.cols.map (fun c =>
      if c.1 ∈ order_columns then (c.1, ffillGrouped none oids c.2) else c)⟩
  | none =>
    ⟨t.cols.map (fun c =>
      if c.1 ∈ order_columns then (c.1, ffillPlain none c.2) else c)⟩

/-! ## Date normalization (src/sales.py, `batch_convert_tw_dates`, lines 63-168) -/

/-- A calendar date, the target type of date normalization (a pandas
`Timestamp` at midnight). -/
structure Date where
  year : Nat
  month : Nat
  day : Nat
deriving DecidableEq, Repr

def isLeapYear (y : Nat) : Bool :=
  (y % 4 == 0 && y % 100 != 0) || y % 400 == 0

def daysInMonth (y m : Nat) : Nat :=
  if m = 2 then (if isLeapYear y then 29 else 28)
  else if m = 4 ∨ m = 6 ∨ m = 9 ∨ m = 11 then 30
  else 31

/-- Lexicographic comparison of (year, month, day) triples. -/
def tripleLE (a b : Nat × Nat × Nat) : Bool :=
  a.1 < b.1 || (a.1 == b.1 && (a.2.1 < b.2.1 || (a.2.1 == b.2.1 && a.2.2 ≤ b.2.2)))

/-- Construct a pandas `Timestamp` from year/month/day with
`errors='coerce'` semantics: `none` when the components are not a real
calendar date or the date falls outside the representable `Timestamp`
range (1677-09-22 to 2262-04-11 for dates at midnight). -/
def mkTimestamp (y m d : Nat) : Option Date :=
  if 1 ≤ m && m ≤ 12 && 1 ≤ d && d ≤ daysInMonth y m
      && tripleLE (1677, 9, 22) (y, m, d) && tripleLE (y, m, d) (2262, 4, 11) then
    some ⟨y, m, d⟩
  else none

def digitsToNat (cs : List Char) : Nat :=
  cs.foldl (fun a c => a * 10 + (c.toNat - '0'.toNat)) 0

/-- Split a character list at every separator satisfying `p`
(the list-level counterpart of `str.split`): `"a.b."` splits on `.`
into `["a", "b", ""]`. -/
def splitListOnP (p : Char → Bool) : List Char → List (List Char)
  | [] => [[]]
  | c :: cs =>
    match splitListOnP p cs with
    | [] => [[]]
    | w :: ws => if p c then [] :: w :: ws else (c :: w) :: ws

def splitListOn (sep : Char) (cs : List Char) : List (List Char) :=
  splitListOnP (fun c => c == sep) cs

/-- Parse a non-empty all-digit string as a natural number (the shape
`pd.to_numeric(..., errors='coerce')` accepts for the year/month/day
components of the ROC-calendar branch). -/
def parseNatDigits (cs : List Char) : Option Nat :=
  if cs ≠ [] && cs.all Char.isDigit then some (digitsToNat cs) else none

/-- Parse a string field of between `lo` and `hi` digits, the semantics
of the `strptime` directives `%Y` (1-4 digits), `%m` and `%d`
(1-2 digits) used by the fixed-format branches. -/
def fieldDigits (cs : List Char) (lo hi : Nat) : Option Nat :=
  if lo ≤ cs.length && cs.length ≤ hi && cs.all Char.isDigit then
    some (digitsToNat cs)
  else none

/-- The ROC (Taiwanese) calendar branch (src/sales.py lines 93-117):
split the string on `.`; with at least three components, convert each
of the first three with `pd.to_numeric`, add 1911 to the year, and
build the date with `errors='coerce'`. -/
def roc_parse (s : String) : Option Date :=
  match splitListOn '.' s.toList with
  | p0 :: p1 :: p2 :: _ =>
    match parseNatDigits p0, parseNatDigits p1, parseNatDigits p2 with
    | some y, some m, some d => mkTimestamp (y + 1911) m d
    | _, _, _ => none
  | _ => none

/-- Strict `%Y-%m-%d` / `%Y/%m/%d` parse (src/sales.py lines 119-141),
with `sep` the separator character. -/
def ymd_sep_parse (sep : Char) (s : String) : Option Date :=
  match splitListOn sep s.toList with
  | [a, b, c] =>
    match fieldDigits a 1 4, fieldDigits b 1 2, fieldDigits c 1 2 with
    | some y, some m, some d => mkTimestamp y m d
    | _, _, _ => none
  | _ => none

/-- Strict `%d/%m/%Y` parse (first fallback format, line 149). -/
def dmy_slash_parse (s : String) : Option Date :=
  match splitListOn '/' s.toList with
  | [a, b, c] =>
    match fieldDigits a 1 2, fieldDigits b 1 2, fieldDigits c 1 4 with
    | some d, some m, some y => mkTimestamp y m d
    | _, _, _ => none
  | _ => none

/-- Strict `%m/%d/%Y` parse (second fallback format, line 149). -/
def mdy_slash_parse (s : String) : Option Date :=
  match splitListOn '/' s.toList with
  | [a, b, c] =>
    match fieldDigits a 1 2, fieldDigits b 1 2, fieldDigits c 1 4 with
    | some m, some d, some y => mkTimestamp y m d
    | _, _, _ => none
  | _ => none

/-- Strict `%Y%m%d` parse (third fallback format, line 149), for the
usual 8-digit shape; other digit counts (which `strptime` could match
by backtracking) are not produced by the data this branch sees and are
not modelled. -/
def compact_ymd_parse (s : String) : Option Date :=
  let cs := s.toList
  if cs.length = 8 && cs.all Char.isDigit then
    mkTimestamp (digitsToNat (cs.take 4)) (digitsToNat ((cs.drop 4).take 2))
      (digitsToNat (cs.drop 6))
  else none

/-- `startsWith p l`: `p` is a leading segment of `l`. -/
def startsWith {α : Type} [DecidableEq α] : List α → List α → Bool
  | [], _ => true
  | _ :: _, [] => false
  | a :: p, b :: l => a == b && startsWith p l

/-- `hasSegment p l`: `p` occurs contiguously inside `l` (the semantics
of `Series.str.contains` with a literal pattern). -/
def hasSegment {α : Type} [DecidableEq α] (p : List α) : List α → Bool
  | [] => startsWith p []
  | l@(_ :: t) => startsWith p l || hasSegment p t

def containsChar (s : String) (c : Char) : Bool := s.toList.contains c

/-- The string preprocessing of `batch_convert_tw_dates` (lines 77-78):
`fillna('')`, `astype(str)`, then replacing the exact string `"nan"`
(the text form of a NaN cell) with the empty string. -/
def normDateStr (s : String) : String := if s = "nan" then "" else s

/-- Stage 1 of `batch_convert_tw_dates` (lines 82-91): the generic
flexible parse `pd.to_datetime(date_series, errors='coerce')`.  The
behaviour of that library parser (dateutil plus pandas format
inference) is taken as a parameter `flex` of the model; every stage
below is proved for an arbitrary `flex`. -/
def dateStage1 (flex : String → Option Date) (s : String) : Option Date := flex s

/-- Stage 2 (lines 93-117): the ROC-calendar branch.  Its row mask is
`date_strs.str.contains('\.') & ~date_strs.str.contains('nan')` — note
that, unlike stages 3-5, it does not require the value to be still
unresolved, so a successful ROC parse overwrites the stage-1 result. -/
def dateStage2 (flex : String → Option Date) (s : String) : Option Date :=
  if containsChar (normDateStr s) '.' && !hasSegment "nan".toList (normDateStr s).toList then
    match roc_parse (normDateStr s) with
    | some d => some d
    | none => dateStage1 flex s
  else dateStage1 flex s

/-- Stage 3 (lines 119-129): `%Y-%m-%d`, applied only to rows whose
mask includes `result.isna()`. -/
def dateStage3 (flex : String → Option Date) (s : String) : Option Date :=
  if (dateStage2 flex s).isNone && containsChar (normDateStr s) '-' then
    ymd_sep_parse '-' (normDateStr s)
  else dateStage2 flex s

/-- Stage 4 (lines 131-141): `%Y/%m/%d`, applied only to rows whose
mask includes `result.isna()`. -/
def dateStage4 (flex : String → Option Date) (s : String) : Option Date :=
  if (dateStage3 flex s).isNone && containsChar (normDateStr s) '/' then
    ymd_sep_parse '/' (normDateStr s)
  else dateStage3 flex s

/-- Stage 5 (lines 143-158): the fallback formats `%d/%m/%Y`,
`%m/%d/%Y`, `%Y%m%d`, applied to the rows still unresolved after stage
4.  The mask of remaining rows is computed once before the loop, so
within this stage a later format overwrites the result of an earlier
one (the fold keeps the last success). -/
def dateStage5 (flex : String → Option Date) (s : String) : Option Date :=
  if (dateStage4 flex s).isNone && normDateStr s ≠ "" then
    [dmy_slash_parse, mdy_slash_parse, compact_ymd_parse].foldl
      (fun acc f => match f (normDateStr s) with
        | some d => some d
        | none => acc) (dateStage4 flex s)
  else dateStage4 flex s

/-- Per-value model of `batch_convert_tw_dates` (src/sales.py lines
63-168): the five parsing stages applied in program order.  `flex` is
the generic flexible parser of stage 1. -/
def batch_convert_tw_dates (flex : String → Option Date) (s : String) : Option Date :=
  dateStage5 flex s

/-- The literal statement of claim C4: a value resolved by an
earlier-priority rule is never overwritten by a later, lower-priority
rule — i.e. whenever some stage produces a value, the final result is
that value. -/
def datePriorityClaim (flex : String → Option Date) : Prop :=
  (∀ s d, dateStage1 flex s = some d → batch_convert_tw_dates flex s = some d) ∧
  (∀ s d, dateStage2 flex s = some d → batch_convert_tw_dates flex s = some d) ∧
  (∀ s d, dateStage3 flex s = some d → batch_convert_tw_dates flex s = some d) ∧
  (∀ s d, dateStage4 flex s = some d → batch_convert_tw_dates flex s = some d)

/-- A generic flexible parser exhibiting the documented behaviour of
`pd.to_datetime` on the dotted string `"12.1.30"`: dateutil tokenizes
it as the numeric triple 12/1/30, reads it month-first with a
two-digit year, and returns 2030-12-01. -/
def flexDotted : String → Option Date :=
  fun s => if s = "12.1.30" then some ⟨2030, 12, 1⟩ else none

/-! ## Numeric coercion (src/sales.py `load_data` lines 41-58,
src/bc_products.py `load_data` lines 46-68) -/

/-- Remove every comma from a string: `Series.str.replace(',', '')`
with a literal pattern. -/
def stripCommas (s : String) : String :=
  ⟨s.toList.filter (fun c => c ≠ ',')⟩

/-- Model of the numeric parser behind
`pd.to_numeric(..., errors='coerce')` on a single string: optional
surrounding whitespace, optional sign, a digit mantissa with an
optional fractional part, and an optional decimal exponent.  The
special float spellings `nan`/`inf` (which parse to non-finite floats
and behave as missing downstream) are mapped to `none` here, `ℚ`
having no such values. -/
def parseMantissaND (cs : List Char) : Option (Int × Nat) :=
  match splitListOn '.' cs with
  | [w] => (parseNatDigits w).map (fun n => ((n : Int), 1))
  | [w, f] =>
    if (w ≠ [] || f ≠ []) && w.all Char.isDigit && f.all Char.isDigit then
      some (((digitsToNat w * 10 ^ f.length + digitsToNat f : Nat) : Int), 10 ^ f.length)
    else none
  | _ => none

def parseSignedND : List Char → Option (Int × Nat)
  | '+' :: rest => parseMantissaND rest
  | '-' :: rest => (parseMantissaND rest).map (fun p => (-p.1, p.2))
  | cs => parseMantissaND cs

def parseExpInt : List Char → Option Int
  | '+' :: rest => (parseNatDigits rest).map Int.ofNat
  | '-' :: rest => (parseNatDigits rest).map (fun n => -(n : Int))
  | cs => (parseNatDigits cs).map Int.ofNat

/-- Strip leading and trailing whitespace (the `str.strip` the numeric
parser applies before parsing). -/
def trimChars (cs : List Char) : List Char :=
  ((cs.dropWhile Char.isWhitespace).reverse.dropWhile Char.isWhitespace).reverse

def parseNumQ (s : String) : Option ℚ :=
  match splitListOnP (fun c => c == 'e' || c == 'E') (trimChars s.toList) with
  | [m] => (parseSignedND m).map (fun p => mkRat p.1 p.2)
  | [m, e] =>
    match parseSignedND m, parseExpInt e with
    | some p, some ev =>
      some (if 0 ≤ ev then mkRat (p.1 * (10 : Int) ^ ev.toNat) p.2
            else mkRat p.1 (p.2 * 10 ^ (-ev).toNat))
    | _, _ => none
  | _ => none

/-- The numeric coercion `convert_numeric_col` applied by the sales
loader to each cell of a designated numeric column (src/sales.py lines
51-55): the cell as text, with an empty cell first replaced by `'0'`
(a whole-value `Series.replace`), commas stripped, then
`pd.to_numeric(..., errors='coerce')` — so a non-empty unparseable
cell becomes NaN (`none`), not 0. -/
def convert_numeric_col (s : String) : Option ℚ :=
  parseNumQ (stripCommas (if s = "" then "0" else s))

/-- The numeric coercion the inventory loader applies to each cell of
a designated numeric column (src/bc_products.py lines 48-62):
text, commas stripped, `pd.to_numeric(..., errors='coerce')`,
`.fillna(0)`, and finally `.astype(int)` which truncates toward zero.
A NaN cell reaches this as the text `"nan"`, parses to NaN and is
zero-filled, so every unparseable cell becomes 0. -/
def bc_numeric_cell (s : String) : Int :=
  match parseNumQ (stripCommas s) with
  | some q => if 0 ≤ q then q.floor else q.ceil
  | none => 0

/-- The literal statement of claim C6 for one cell: in numeric
coercion during normalization (`load_data`), every cell whose text
cannot be parsed as a number after comma-stripping becomes 0 — never
missing — in both loaders. -/
def numericCoercionClaim : Prop :=
  ∀ s : String, parseNumQ (stripCommas s) = none →
    convert_numeric_col s = some 0 ∧ bc_numeric_cell s = 0

/-- The sentinel test of the margin-percent column
(src/bc_products.py line 67): `Series.replace` with the regular
expression `\*\*\*\.\*\*` and a non-string replacement replaces the
whole cell whenever the pattern is found in it. -/
def marginSentinel (s : String) : Bool :=
  hasSegment "***.**".toList s.toList

/-- The margin-percent coercion of the inventory loader
(src/bc_products.py lines 64-68): a cell matching the
asterisks-dot-asterisks sentinel is replaced by NaN, then the column
goes through `pd.to_numeric(..., errors='coerce')` with no zero-fill,
so unparseable values stay missing. -/
def bc_margin_cell (s : String) : Option ℚ :=
  if marginSentinel s then none else parseNumQ s

/-! ## Inventory join (src/fixed_sales_dashboard.py lines 274-292) -/

/-- One row of the product aggregate entering the join: the product
code (coerced to text on both sides before matching) and the total
sold quantity. -/
structure SalesAgg where
  code : String
  qty : ℚ
deriving DecidableEq, Repr

/-- One reconciled row produced by the join: on-hand quantity
(`數量_庫存` after `fillna(0).astype(int)`) and the stock difference
`庫存差異 = 數量_庫存 - 數量`. -/
structure ReconRow where
  code : String
  qty : ℚ
  onHand : Int
  diff : ℚ
deriving DecidableEq, Repr

/-- Model of the inventory join (src/fixed_sales_dashboard.py lines
274-292): `merge(bc_df[['產品代號', '數量']], on='產品代號', how='left')`
followed by `數量_庫存.fillna(0).astype(int)` and
`庫存差異 = 數量_庫存 - 數量`.  A left merge emits one output row per
matching snapshot row, and one null-filled row when there is no
match. -/
def joinInventory (agg : List SalesAgg) (inv : List (String × Int)) : List ReconRow :=
  agg.flatMap (fun a =>
    match inv.filter (fun p => p.1 = a.code) with
    | [] => [⟨a.code, a.qty, 0, (0 : ℚ) - a.qty⟩]
    | ms => ms.map (fun p => ⟨a.code, a.qty, p.2, (p.2 : ℚ) - a.qty⟩))

/-- The single reconciled row an aggregate row produces when the
snapshot's product codes are unique (the data-model invariant). -/
def singleJoin (inv : List (String × Int)) (a : SalesAgg) : ReconRow :=
  match inv.find? (fun p => p.1 = a.code) with
  | some p => ⟨a.code, a.qty, p.2, (p.2 : ℚ) - a.qty⟩
  | none => ⟨a.code, a.qty, 0, (0 : ℚ) - a.qty⟩

/-- The literal statement of claim C3 for given inputs: every
aggregate row yields exactly one reconciled row, on-hand is 0 iff the
product code is absent from the snapshot, and the stock difference is
on-hand minus total sold quantity. -/
def joinClaim (agg : List SalesAgg) (inv : List (String × Int)) : Prop :=
  (joinInventory agg inv).length = agg.length ∧
  (∀ r ∈ joinInventory agg inv, r.onHand = 0 ↔ r.code ∉ inv.map Prod.fst) ∧
  (∀ r ∈ joinInventory agg inv, r.diff = (r.onHand : ℚ) - r.qty)

/-! ## Product aggregation (src/sales.py `get_product_summary`,
lines 891-1014) -/

/-- One normalized sales line item, with `none` for NaN cells.  `code`
is the product code `產品代號` (null codes are dropped by `groupby` and
by the code filter), `month` the period label `month_info` attached in
multi-month mode. -/
structure LineItem where
  code : Option String
  name : Option String
  qty : Option ℚ
  unit : Option String
  price : Option ℚ
  subtotal : Option ℚ
  cost : Option ℚ
  month : String
deriving DecidableEq, Repr

/-- The input dataframe of `get_product_summary`: its rows plus the
presence of each optional column (`'col' in df.columns`). -/
structure SalesInput where
  hasCode : Bool
  hasName : Bool
  hasQty : Bool
  hasUnit : Bool
  hasPrice : Bool
  hasSubtotal : Bool
  hasCost : Bool
  hasMonth : Bool
  rows : List LineItem
deriving DecidableEq

/-- One row of the product summary.  A `none` aggregate field means the
corresponding input column was absent (or, for `first`/`mean`
aggregations, that the group had no non-null value).  `derived` is the
always-numeric `單價（數量）` column; `monthCols` the per-period
`{month} 數量`/`{month} 小計` pairs of multi-month mode. -/
structure AggRow where
  code : String
  name : Option String
  qty : Option ℚ
  unit : Option String
  price : Option ℚ
  subtotal : Option ℚ
  cost : Option ℚ
  derived : ℚ
  monthCols : List (String × ℚ × ℚ)
deriving DecidableEq, Repr

/-- The product-summary dataframe: column names plus rows. -/
structure Summary where
  cols : List String
  rows : List AggRow
deriving DecidableEq

/-- Distinct values in first-seen order (`Series.unique`, and the set
of keys of `groupby`). -/
def dedupKeep {α : Type} [DecidableEq α] : List α → List α
  | [] => []
  | a :: t => a :: (dedupKeep t).filter (fun b => b ≠ a)

/-- The rows of one `groupby('產品代號')` group, in original order. -/
def rowsFor (rows : List LineItem) (c : String) : List LineItem :=
  rows.filter (fun r => r.code = some c)

/-- The group keys of `groupby('產品代號')`: distinct non-null codes. -/
def codesOf (rows : List LineItem) : List String :=
  dedupKeep (rows.filterMap (fun r => r.code))

/-- `sum` aggregation with pandas `skipna` semantics: nulls are
skipped and an all-null group sums to 0. -/
def sumOpt (rows : List LineItem) (f : LineItem → Option ℚ) : ℚ :=
  (rows.filterMap f).sum

/-- `mean` aggregation with pandas `skipna` semantics: nulls are
excluded from the mean and an all-null group yields NaN. -/
def meanOpt (rows : List LineItem) (f : LineItem → Option ℚ) : Option ℚ :=
  match rows.filterMap f with
  | [] => none
  | vs => some (vs.sum / vs.length)

/-- `first` aggregation: the first non-null value of the group. -/
def firstOpt (rows : List LineItem) (f : LineItem → Option String) : Option String :=
  (rows.filterMap f).head?

/-- The row filter applied before grouping (src/sales.py line 903):
`df_work['產品代號'].str.contains(product_filter, case=False, na=False)`.
Null codes never match; the pattern test itself (case-insensitive
regex containment, supplied by the re module) is abstracted as the
Boolean predicate carried by the filter. -/
def filteredRows (inp : SalesInput) (product_filter : Option (String → Bool)) :
    List LineItem :=
  match product_filter with
  | some pat => inp.rows.filter (fun r =>
      match r.code with
      | some c => pat c
      | none => false)
  | none => inp.rows

/-- One group's aggregate row (src/sales.py lines 925-967): `first`
for name and unit, `sum` for quantity, subtotal and cost, `mean` for
unit price — each only if the column exists — and the derived unit
price `單價（數量）`, a float column initialized to `0.0` and overwritten
with `小計 / 數量` exactly on the rows where `數量 > 0` (and only when
both columns exist). -/
def mkAgg (inp : SalesInput) (rows : List LineItem) (c : String) : AggRow :=
  let g := rowsFor rows c
  let q := sumOpt g (fun r => r.qty)
  let s := sumOpt g (fun r => r.subtotal)
  { code := c
    name := if inp.hasName then firstOpt g (fun r => r.name) else none
    qty := if inp.hasQty then some q else none
    unit := if inp.hasUnit then firstOpt g (fun r => r.unit) else none
    price := if inp.hasPrice then meanOpt g (fun r => r.price) else none
    subtotal := if inp.hasSubtotal then some s else none
    cost := if inp.hasCost then some (sumOpt g (fun r => r.cost)) else none
    derived := if inp.hasQty && inp.hasSubtotal && 0 < q then s / q else 0
    monthCols := [] }

/-- Insertion into a list sorted by `小計` descending, realizing
`sort_values(by='小計', ascending=False)` (tie order is unspecified in
the source, which uses an unstable quicksort). -/
def insertBySub (r : AggRow) : List AggRow → List AggRow
  | [] => [r]
  | x :: xs =>
    if r.subtotal.getD 0 ≤ x.subtotal.getD 0 then x :: insertBySub r xs
    else r :: x :: xs

def sortBySubDesc (l : List AggRow) : List AggRow :=
  l.foldr insertBySub []

/-- The per-month aggregate (src/sales.py lines 975-997): rows of the
month, grouped by product code, with quantity and subtotal summed. -/
def month_agg (rows : List LineItem) (m : String) : List (String × ℚ × ℚ) :=
  let mr := rows.filter (fun r => r.month = m)
  (codesOf mr).map (fun c =>
    (c, sumOpt (rowsFor mr c) (fun r => r.qty), sumOpt (rowsFor mr c) (fun r => r.subtotal)))

/-- The left merge of one month's aggregate into the summary
(src/sales.py lines 999-1008): `merge(month_agg, on='產品代號',
how='left')` (the right side is a groupby result, hence uniquely
keyed, so the merge is a lookup) followed by `fillna(0)` on the two
new columns. -/
def attachMonth (ma : List (String × ℚ × ℚ)) (m : String) (r : AggRow) : AggRow :=
  match ma.find? (fun p => p.1 = r.code) with
  | some p => { r with monthCols := r.monthCols ++ [(m, p.2.1, p.2.2)] }
  | none => { r with monthCols := r.monthCols ++ [(m, 0, 0)] }

def attachMonths (rows : List LineItem) (months : List String) (summary : List AggRow) :
    List AggRow :=
  months.foldl (fun acc m => acc.map (attachMonth (month_agg rows m) m)) summary

/-- The per-period column pair a product receives for month `m`: the
month's aggregate looked up by product code, zero-filled when the
product is absent from the month. -/
def monthEntry (rows : List LineItem) (c : String) (m : String) : String × ℚ × ℚ :=
  match (month_agg rows m).find? (fun p => p.1 = c) with
  | some p => (m, p.2.1, p.2.2)
  | none => (m, 0, 0)

/-- The rows of one month for one product: the summand set of that
product's per-month columns. -/
def monthRows (rows : List LineItem) (c m : String) : List LineItem :=
  rowsFor (rows.filter (fun r => r.month = m)) c

/-- The column list of the canonical empty summary returned when the
product-code column is missing or anything raises (src/sales.py lines
918-920 and 1011-1014). -/
def canonicalCols : List String :=
  ["產品代號", "產品名稱", "數量", "單位", "單價", "單價（數量）", "小計", "成本總值"]

def emptySummary : Summary := ⟨canonicalCols, []⟩

/-- The column list of a non-empty summary: the groupby key, the
aggregated columns in `agg_dict` insertion order, the derived price
column, then one quantity/subtotal pair per month. -/
def summaryColsOf (inp : SalesInput) (months : List String) : List String :=
  ["產品代號"] ++ (if inp.hasName then ["產品名稱"] else [])
    ++ (if inp.hasQty then ["數量"] else [])
    ++ (if inp.hasUnit then ["單位"] else [])
    ++ (if inp.hasSubtotal then ["小計"] else [])
    ++ (if inp.hasCost then ["成本總值"] else [])
    ++ (if inp.hasPrice then ["單價"] else [])
    ++ ["單價（數量）"]
    ++ months.flatMap (fun m => [m ++ " 數量", m ++ " 小計"])

/-- The overall aggregate: one row per distinct (non-null) product
code of the filtered input, in first-seen order. -/
def baseAgg (inp : SalesInput) (product_filter : Option (String → Bool)) : List AggRow :=
  (codesOf (filteredRows inp product_filter)).map
    (mkAgg inp (filteredRows inp product_filter))

/-- The overall aggregate sorted by `小計` descending (when that column
exists; src/sales.py lines 951-953). -/
def sortedBase (inp : SalesInput) (product_filter : Option (String → Bool)) : List AggRow :=
  if inp.hasSubtotal then sortBySubDesc (baseAgg inp product_filter)
  else baseAgg inp product_filter

/-- The months that get per-period columns: the distinct period labels
of the filtered rows, in multi-month mode with the `month_info` column
present; each month is skipped when the quantity or subtotal column is
absent (src/sales.py lines 969-984). -/
def monthsFor (inp : SalesInput) (product_filter : Option (String → Bool))
    (is_multi_month : Bool) : List String :=
  if is_multi_month && inp.hasMonth && inp.hasQty && inp.hasSubtotal then
    dedupKeep ((filteredRows inp product_filter).map (fun r => r.month))
  else []

/-- Model of `get_product_summary` (src/sales.py lines 891-1014).
When the product-code column is absent the canonical empty summary is
returned — through the explicit guard when no filter is given, and
through the surrounding `try/except` (the filter expression raises
`KeyError`) otherwise; either path yields the same value, and the
function never raises.  Otherwise: filter, group by product code,
aggregate, sort by subtotal descending, and in multi-month mode (when
the `month_info` column exists) left-merge one quantity/subtotal pair
per distinct period label, zero-filled. -/
def get_product_summary (inp : SalesInput) (product_filter : Option (String → Bool))
    (is_multi_month : Bool) : Summary :=
  if inp.hasCode then
    ⟨summaryColsOf inp (monthsFor inp product_filter is_multi_month),
     attachMonths (filteredRows inp product_filter)
       (monthsFor inp product_filter is_multi_month)
       (sortedBase inp product_filter)⟩
  else emptySummary

theorem ffillGrouped_length {α β : Type} (carry : Option β) (oids : List (Option α))
    (vals : List (Option β)) : (ffillGrouped carry oids vals).length = vals.length := by
  induction vals generalizing carry oids with
  | nil => rfl
  | cons v vs ih => simpa [ffillGrouped] using ih _ oids.tail

theorem ffillPlain_length {β : Type} (carry : Option β) (vals : List (Option β)) :
    (ffillPlain carry vals).length = vals.length := by
  induction vals generalizing carry with
  | nil => rfl
  | cons v vs ih => simpa [ffillPlain] using ih _

theorem ffillGrouped_append {α β : Type} (oids₁ : List (Option α)) (vals₁ : List (Option β))
    (hlen : oids₁.length = vals₁.length) (carry : Option β)
    (oids₂ : List (Option α)) (vals₂ : List (Option β)) :
    ffillGrouped carry (oids₁ ++ oids₂) (vals₁ ++ vals₂) =
      ffillGrouped carry oids₁ vals₁ ++
        ffillGrouped (ffillCarry carry oids₁ vals₁) oids₂ vals₂ := by
  induction vals₁ generalizing oids₁ carry with
  | nil =>
    have : oids₁ = [] := List.length_eq_zero.mp (by simpa using hlen)
    subst this
    simp [ffillGrouped, ffillCarry]
  | cons v vs ih =>
    cases oids₁ with
    | nil => simp at hlen
    | cons oid os =>
      simp only [List.length_cons, Nat.succ.injEq] at hlen
      cases v with
      | some x => simp [ffillGrouped, ffillCarry, ih os hlen]
      | none => simp [ffillGrouped, ffillCarry, ih os hlen]

theorem ffillGrouped_header_block {α β : Type} (h : α) (v : Option β) (n : Nat)
    (carry : Option β) :
    ffillGrouped carry (some h :: List.replicate n none) (v :: List.replicate n none) =
      v :: List.replicate n v := by
  have step : ∀ (m : Nat) (w : Option β),
      ffillGrouped w (List.replicate m (none : Option α)) (List.replicate m (none : Option β)) =
        List.replicate m w := by
    intro m
    induction m with
    | zero => intro w; rfl
    | succ k ih => intro w; simp [List.replicate, ffillGrouped, ih]
  cases v with
  | some x => simp [ffillGrouped, step]
  | none => simp [ffillGrouped, step]

/-! ## Claim C2: forward-fill invariant of `fill_order_info` -/

/-- C2, counterexample.  The claim — after filling, every order-level
field of a null-order-identifier row equals that field of the nearest
preceding header row — fails on the two-row table where the header's
customer cell is null and the continuation row carries its own
non-null customer `"X"`: `groupby(...).ffill()` keeps the continuation
row's own value, which differs from the header's null cell, as
`fill_order_info` itself shows on the corresponding table. -/
theorem claim_C2_counterexample :
    ¬ forwardFillClaim [some "S1", none] [none, some "X"] ∧
    getCol (fill_order_info ⟨[("銷貨單號", [some (Val.str "S1"), none]),
        ("客戶名稱", [none, some (Val.str "X")])]⟩) "客戶名稱" =
      some [none, some (Val.str "X")] := by
  constructor
  · intro h
    have h1 := h 1 (by decide) (by decide) 0 (by decide) (by decide)
      (fun k hk hjk => absurd hjk (by omega))
    exact absurd h1 (by decide)
  · decide

theorem lastSomeFrom_cons {β : Type} (c : Option β) (v : Option β) (l : List (Option β)) :
    lastSomeFrom c (v :: l) =
      lastSomeFrom (match v with
        | some x => some x
        | none => c) l := rfl

theorem lastSome_cons {β : Type} (v : Option β) (l : List (Option β)) :
    lastSome (v :: l) = lastSomeFrom v l := by
  cases v <;> rfl

theorem ffillGrouped_header_cons {α β : Type} (carry : Option β) (h : α)
    (oids : List (Option α)) (v : Option β) (vals : List (Option β)) :
    ffillGrouped carry (some h :: oids) (v :: vals) = v :: ffillGrouped v oids vals := by
  cases v <;> rfl

theorem ffillGrouped_all_none {α β : Type} (carry : Option β) (oids : List (Option α))
    (vals : List (Option β)) (h : ∀ u, u < oids.length → oids.getD u none = none) :
    ffillGrouped carry oids vals = ffillPlain carry vals := by
  induction vals generalizing oids carry with
  | nil => rfl
  | cons w ws ih =>
    have hhead : (oids.headD none).isSome = false := by
      cases oids with
      | nil => rfl
      | cons o os =>
        have h0 := h 0 (by simp)
        rw [List.getD_cons_zero] at h0
        rw [List.headD_cons, h0]
        rfl
    have htail : ∀ u, u < oids.tail.length → oids.tail.getD u none = none := by
      intro u hu
      cases oids with
      | nil => simp at hu
      | cons o os =>
        have hu' : u + 1 < (o :: os).length := by
          simp only [List.length_cons]
          simpa using Nat.succ_lt_succ (by simpa using hu)
        have := h (u + 1) hu'
        simpa using this
    simp only [ffillGrouped, ffillPlain, hhead]
    cases w with
    | some x => simp [ih _ oids.tail htail]
    | none => simp [ih _ oids.tail htail]

theorem ffillPlain_getD {β : Type} (carry : Option β) (vals : List (Option β)) (i : Nat)
    (hi : i < vals.length) :
    (ffillPlain carry vals).getD i none = lastSomeFrom carry (vals.take (i + 1)) := by
  induction vals generalizing carry i with
  | nil => simp at hi
  | cons w ws ih =>
    cases i with
    | zero => cases w <;> rfl
    | succ n =>
      have hn : n < ws.length := by simpa using hi
      simp only [ffillPlain, List.getD_cons_succ, List.take_succ_cons, lastSomeFrom_cons]
      cases w with
      | some x => exact ih (some x) n hn
      | none => exact ih carry n hn

theorem ffillGrouped_getD_some {α β : Type} (carry : Option β) (oids : List (Option α))
    (vals : List (Option β)) (i : Nat) (x : β) (hi : i < vals.length)
    (hx : vals.getD i none = some x) :
    (ffillGrouped carry oids vals).getD i none = some x := by
  induction vals generalizing oids carry i with
  | nil => simp at hi
  | cons w ws ih =>
    cases i with
    | zero =>
      rw [List.getD_cons_zero] at hx
      subst hx
      rfl
    | succ n =>
      rw [List.getD_cons_succ] at hx
      have hn : n < ws.length := by simpa using hi
      simp only [ffillGrouped, List.getD_cons_succ]
      exact ih _ oids.tail n hn hx

theorem ffillGrouped_getD_ge {α β : Type} (oids : List (Option α)) (vals : List (Option β))
    (j i : Nat) (hjo : j ≤ oids.length) (hjv : j ≤ vals.length) (hij : j ≤ i)
    (carry : Option β) :
    (ffillGrouped carry oids vals).getD i none =
      (ffillGrouped (ffillCarry carry (oids.take j) (vals.take j))
        (oids.drop j) (vals.drop j)).getD (i - j) none := by
  have hlen' : (oids.take j).length = (vals.take j).length := by
    simp only [List.length_take]
    omega
  conv_lhs => rw [← List.take_append_drop j oids, ← List.take_append_drop j vals]
  rw [ffillGrouped_append _ _ hlen']
  have hout : (ffillGrouped carry (oids.take j) (vals.take j)).length = j := by
    rw [ffillGrouped_length]
    simp only [List.length_take]
    omega
  simp only [List.getD_eq_getElem?_getD]
  rw [List.getElem?_append_right (by omega :
    (ffillGrouped carry (oids.take j) (vals.take j)).length ≤ i)]
  rw [hout]

theorem ffillGrouped_getD_lt {α β : Type} (oids : List (Option α)) (vals : List (Option β))
    (k i : Nat) (hik : i < k) (hko : k ≤ oids.length) (hkv : k ≤ vals.length)
    (carry : Option β) :
    (ffillGrouped carry oids vals).getD i none =
      (ffillGrouped carry (oids.take k) (vals.take k)).getD i none := by
  have hlen' : (oids.take k).length = (vals.take k).length := by
    simp only [List.length_take]
    omega
  conv_lhs => rw [← List.take_append_drop k oids, ← List.take_append_drop k vals]
  rw [ffillGrouped_append _ _ hlen']
  have hout : (ffillGrouped carry (oids.take k) (vals.take k)).length = k := by
    rw [ffillGrouped_length]
    simp only [List.length_take]
    omega
  simp only [List.getD_eq_getElem?_getD]
  rw [List.getElem?_append_left (by omega :
    i < (ffillGrouped carry (oids.take k) (vals.take k)).length)]

theorem ffillGrouped_getD_window {α β : Type} (oids : List (Option α))
    (vals : List (Option β)) (hlen : oids.length = vals.length) (i j : Nat)
    (hi : i < vals.length) (hji : j < i) (hj : (oids.getD j none).isSome)
    (hnone : ∀ k, k ≤ i → j < k → oids.getD k none = none) :
    (ffillGrouped none oids vals).getD i none =
      lastSome ((vals.drop j).take (i - j + 1)) := by
  have hjv : j < vals.length := by omega
  have hjo : j < oids.length := by omega
  obtain ⟨h', hh⟩ := Option.isSome_iff_exists.mp hj
  have hgetj : oids[j] = some h' := by
    have hconv : oids.getD j none = oids[j] := by
      simp [List.getD_eq_getElem?_getD, List.getElem?_eq_getElem hjo]
    rw [← hconv]
    exact hh
  have ho : oids.drop j = some h' :: oids.drop (j + 1) := by
    rw [List.drop_eq_getElem_cons hjo, hgetj]
  have hv : vals.drop j = vals[j] :: vals.drop (j + 1) := List.drop_eq_getElem_cons hjv
  rw [ffillGrouped_getD_ge oids vals j i (by omega) (by omega) (by omega) none]
  rw [ho, hv, ffillGrouped_header_cons]
  have hidx : i - j = (i - j - 1) + 1 := by omega
  rw [hidx, List.getD_cons_succ]
  have hlo : i - j - 1 + 1 ≤ (oids.drop (j + 1)).length := by
    simp only [List.length_drop]
    omega
  have hlv : i - j - 1 + 1 ≤ (vals.drop (j + 1)).length := by
    simp only [List.length_drop]
    omega
  rw [ffillGrouped_getD_lt (oids.drop (j + 1)) (vals.drop (j + 1)) (i - j - 1 + 1)
    (i - j - 1) (by omega) hlo hlv vals[j]]
  have hall : ∀ u, u < ((oids.drop (j + 1)).take (i - j - 1 + 1)).length →
      ((oids.drop (j + 1)).take (i - j - 1 + 1)).getD u none = none := by
    intro u hu
    have hu1 : u < i - j - 1 + 1 := by
      simp only [List.length_take] at hu
      omega
    have hgd : ((oids.drop (j + 1)).take (i - j - 1 + 1)).getD u none =
        oids.getD (j + 1 + u) none := by
      simp only [List.getD_eq_getElem?_getD]
      rw [List.getElem?_take_of_lt hu1, List.getElem?_drop]
    rw [hgd]
    exact hnone (j + 1 + u) (by omega) (by omega)
  rw [ffillGrouped_all_none _ _ _ hall]
  have hlt : i - j - 1 < ((vals.drop (j + 1)).take (i - j - 1 + 1)).length := by
    simp only [List.length_take, List.length_drop]
    omega
  rw [ffillPlain_getD _ _ _ hlt]
  rw [List.take_take, Nat.min_self, List.take_succ_cons, lastSome_cons]

theorem ffillGrouped_getD_no_header {α β : Type} (oids : List (Option α))
    (vals : List (Option β)) (hlen : oids.length = vals.length) (i : Nat)
    (hi : i < vals.length) (hnone : ∀ k, k ≤ i → oids.getD k none = none) :
    (ffillGrouped none oids vals).getD i none = lastSome (vals.take (i + 1)) := by
  rw [ffillGrouped_getD_lt oids vals (i + 1) i (by omega) (by omega) (by omega) none]
  have hall : ∀ u, u < (oids.take (i + 1)).length →
      (oids.take (i + 1)).getD u none = none := by
    intro u hu
    have hu1 : u < i + 1 := by
      simp only [List.length_take] at hu
      omega
    have hgd : (oids.take (i + 1)).getD u none = oids.getD u none := by
      simp only [List.getD_eq_getElem?_getD]
      rw [List.getElem?_take_of_lt hu1]
    rw [hgd]
    exact hnone u (by omega)
  rw [ffillGrouped_all_none _ _ _ hall]
  have hlt : i < (vals.take (i + 1)).length := by
    simp only [List.length_take]
    omega
  rw [ffillPlain_getD _ _ _ hlt]
  rw [List.take_take, Nat.min_self]
  rfl

/-- C2, amended: after `fill_order_info`, each order-level column
obeys, row by row: (1) a row's own non-null cell is always kept; and a
row whose order identifier is null holds the most recent non-null cell
of the column within its group — (2) when a nearest preceding header
row exists at position `j`, the filled cell is the last non-null cell
of the window from the header row through the row itself (hence the
header's cell when the window's later cells are all null, and a
continuation row's own non-null cell propagated onward otherwise), and
(3) when no header precedes the row, the window runs from the top of
the column. -/
theorem claim_C2_amended {α β : Type} (oids : List (Option α)) (vals : List (Option β))
    (hlen : oids.length = vals.length) :
    (∀ i x, i < vals.length → vals.getD i none = some x →
      (ffillGrouped none oids vals).getD i none = some x) ∧
    (∀ i j, i < vals.length → oids.getD i none = none →
      j < i → (oids.getD j none).isSome →
      (∀ k, k < i → j < k → oids.getD k none = none) →
      (ffillGrouped none oids vals).getD i none =
        lastSome ((vals.drop j).take (i - j + 1))) ∧
    (∀ i, i < vals.length → oids.getD i none = none →
      (∀ k, k < i → oids.getD k none = none) →
      (ffillGrouped none oids vals).getD i none = lastSome (vals.take (i + 1))) := by
  refine ⟨fun i x hi hx => ffillGrouped_getD_some none oids vals i x hi hx,
    fun i j hi hinull hji hj hnear => ?_, fun i hi hinull hnone => ?_⟩
  · refine ffillGrouped_getD_window oids vals hlen i j hi hji hj ?_
    intro k hki hjk
    by_cases hk : k = i
    · subst hk
      exact hinull
    · exact hnear k (by omega) hjk
  · refine ffillGrouped_getD_no_header oids vals hlen i hi ?_
    intro k hki
    by_cases hk : k = i
    · subst hk
      exact hinull
    · exact hnone k (by omega)

/-- C2, witness: in the column [header cell "D"; null; own cell "X"],
the filled value of the last row (a null-order-id row whose group
window is the whole column) is the most recent non-null cell, "X". -/
theorem claim_C2_amended_witness :
    (ffillGrouped none [some "S1", none, none]
      [some "D", none, some "X"]).getD 2 none = some "X" :=
  ((claim_C2_amended [some "S1", none, none] [some "D", none, some "X"] rfl).2.1
    2 0 (by decide) (by decide) (by decide) (by decide) (by decide)).trans (by decide)

/-! ## Claim C10: frame effect of `fill_order_info` -/

/-- C10: `fill_order_info` (which operates on a copy — inherent in
this functional embedding, its argument being untouched) preserves the
column names, preserves every column's row count, and leaves every
column outside the designated order-level set cell-for-cell
unchanged. -/
theorem claim_C10_frame (t : Table) :
    ((fill_order_info t).cols.map Prod.fst = t.cols.map Prod.fst) ∧
    ((fill_order_info t).cols.map (fun c => c.2.length) =
      t.cols.map (fun c => c.2.length)) ∧
    (∀ c ∈ t.cols, c.1 ∉ order_columns → c ∈ (fill_order_info t).cols) := by
  cases hcol : getCol t "銷貨單號" with
  | some oids =>
    refine ⟨?_, ?_, ?_⟩
    · simp only [fill_order_info, hcol, List.map_map]
      apply List.map_congr_left
      intro c _
      by_cases hc : c.1 ∈ order_columns <;> simp [hc]
    · simp only [fill_order_info, hcol, List.map_map]
      apply List.map_congr_left
      intro c _
      by_cases hc : c.1 ∈ order_columns <;> simp [hc, ffillGrouped_length]
    · intro c hc hnot
      have hfix : (if c.1 ∈ order_columns then (c.1, ffillGrouped none oids c.2) else c) = c :=
        if_neg hnot
      simp only [fill_order_info, hcol]
      exact hfix ▸ List.mem_map_of_mem _ hc
  | none =>
    refine ⟨?_, ?_, ?_⟩
    · simp only [fill_order_info, hcol, List.map_map]
      apply List.map_congr_left
      intro c _
      by_cases hc : c.1 ∈ order_columns <;> simp [hc]
    · simp only [fill_order_info, hcol, List.map_map]
      apply List.map_congr_left
      intro c _
      by_cases hc : c.1 ∈ order_columns <;> simp [hc, ffillPlain_length]
    · intro c hc hnot
      have hfix : (if c.1 ∈ order_columns then (c.1, ffillPlain none c.2) else c) = c :=
        if_neg hnot
      simp only [fill_order_info, hcol]
      exact hfix ▸ List.mem_map_of_mem _ hc

/-- C10, witness: on a two-column table the non-order column `產品代號`
comes through `fill_order_info` unchanged. -/
theorem claim_C10_frame_witness :
    ("產品代號", [some (Val.str "A"), none]) ∈
      (fill_order_info ⟨[("產品代號", [some (Val.str "A"), none]),
        ("銷貨單號", [some (Val.str "S1"), none])]⟩).cols :=
  (claim_C10_frame _).2.2 ("產品代號", [some (Val.str "A"), none]) (by decide) (by decide)

/-! ## Claims C4, C5: date-normalization priority and the ROC parse -/

theorem dateStage2_final (flex : String → Option Date) (s : String) (d : Date)
    (h : dateStage2 flex s = some d) : batch_convert_tw_dates flex s = some d := by
  simp [batch_convert_tw_dates, dateStage5, dateStage4, dateStage3, h]

theorem dateStage3_final (flex : String → Option Date) (s : String) (d : Date)
    (h : dateStage3 flex s = some d) : batch_convert_tw_dates flex s = some d := by
  simp [batch_convert_tw_dates, dateStage5, dateStage4, h]

theorem dateStage4_final (flex : String → Option Date) (s : String) (d : Date)
    (h : dateStage4 flex s = some d) : batch_convert_tw_dates flex s = some d := by
  simp [batch_convert_tw_dates, dateStage5, h]

theorem dateStage2_roc (flex : String → Option Date) (s : String) (d : Date)
    (hc : (containsChar (normDateStr s) '.' &&
      !hasSegment "nan".toList (normDateStr s).toList) = true)
    (hr : roc_parse (normDateStr s) = some d) : dateStage2 flex s = some d := by
  unfold dateStage2
  rw [hc]
  simp [hr]

/-- C4, counterexample.  The stage masks of rules 3-5 require the value
to be still unresolved, but the ROC-calendar rule's mask does not: it
fires on every dot-containing string.  On `"12.1.30"` — which the
generic flexible parser resolves (dateutil reads it month-first with a
two-digit year as 2030-12-01) — the ROC rule re-parses 12 as the year
1923 and overwrites the already-resolved value, so the priority claim
fails. -/
theorem claim_C4_counterexample : ¬ datePriorityClaim flexDotted := by
  intro h
  have h1 := h.1 "12.1.30" ⟨2030, 12, 1⟩ (by decide)
  exact absurd h1 (by decide)

/-- C4, amended: a value resolved by the end of the ROC stage (stage 2)
— and likewise one resolved by the dash stage or the slash stage — is
never overwritten by any later rule.  Only the generic flexible parse
(stage 1) can be overwritten, namely by the ROC rule on dot-containing
strings; and within the stage-5 fallback list the last matching format
wins. -/
theorem claim_C4_amended (flex : String → Option Date) :
    (∀ s d, dateStage2 flex s = some d → batch_convert_tw_dates flex s = some d) ∧
    (∀ s d, dateStage3 flex s = some d → batch_convert_tw_dates flex s = some d) ∧
    (∀ s d, dateStage4 flex s = some d → batch_convert_tw_dates flex s = some d) :=
  ⟨fun s d h => dateStage2_final flex s d h,
   fun s d h => dateStage3_final flex s d h,
   fun s d h => dateStage4_final flex s d h⟩

/-- C4, witness: with a generic parser that resolves nothing,
`"112.01.15"` is resolved by the ROC stage and survives to the final
result. -/
theorem claim_C4_amended_witness :
    dateStage2 (fun _ => none) "112.01.15" = some ⟨2023, 1, 15⟩ ∧
    batch_convert_tw_dates (fun _ => none) "112.01.15" = some ⟨2023, 1, 15⟩ :=
  ⟨by decide, (claim_C4_amended (fun _ => none)).1 "112.01.15" ⟨2023, 1, 15⟩ (by decide)⟩

/-- C5: the legacy ROC-calendar value `"112.01.15"` normalizes to the
calendar date 2023-01-15 (112 + 1911 = 2023), whatever the generic
flexible parser of stage 1 does with it — the ROC branch applies to
every dot-containing string and its result survives all later
stages. -/
theorem claim_C5_roc_example (flex : String → Option Date) :
    batch_convert_tw_dates flex "112.01.15" = some ⟨2023, 1, 15⟩ :=
  dateStage2_final flex _ _
    (dateStage2_roc flex "112.01.15" ⟨2023, 1, 15⟩ (by decide) (by decide))

/-- C5, witness: the same evaluation at a concrete generic parser. -/
theorem claim_C5_roc_example_witness :
    batch_convert_tw_dates (fun _ => none) "112.01.15" = some ⟨2023, 1, 15⟩ :=
  claim_C5_roc_example (fun _ => none)

/-! ## Claims C6, C7: numeric and percent coercion in the loaders -/

/-- C6, counterexample.  The inventory loader zero-fills after
coercion, but the sales loader's `convert_numeric_col` ends at
`pd.to_numeric(..., errors='coerce')`: the unparseable cell `"abc"`
becomes NaN (`none`), not 0, so the claim that both loaders turn every
unparseable cell into 0 fails. -/
theorem claim_C6_counterexample : ¬ numericCoercionClaim := by
  intro h
  have h1 := (h "abc" (by decide)).1
  exact absurd h1 (by decide)

/-- C6, amended: in the inventory loader (`bc_products.load_data`)
every unparseable cell of a designated numeric column becomes 0; in
the sales loader (`sales.load_data`) only the empty string is mapped
to 0 — every other unparseable cell becomes missing (NaN), not 0. -/
theorem claim_C6_amended :
    (∀ s, parseNumQ (stripCommas s) = none → bc_numeric_cell s = 0) ∧
    (∀ s, s ≠ "" → parseNumQ (stripCommas s) = none → convert_numeric_col s = none) ∧
    convert_numeric_col "" = some 0 := by
  refine ⟨fun s h => ?_, fun s hne h => ?_, by decide⟩
  · unfold bc_numeric_cell
    rw [h]
  · unfold convert_numeric_col
    rw [if_neg hne, h]

/-- C6, witness: the unparseable cell `"abc"` becomes 0 in the
inventory loader and missing in the sales loader. -/
theorem claim_C6_amended_witness :
    bc_numeric_cell "abc" = 0 ∧ convert_numeric_col "abc" = none :=
  ⟨claim_C6_amended.1 "abc" (by decide),
   claim_C6_amended.2.1 "abc" (by decide) (by decide)⟩

/-- C7: in the inventory loader's margin-percent coercion, a cell
matching the asterisks-dot-asterisks sentinel becomes a true missing
value (never 0), and every other cell is handed to the numeric parser
unchanged — so unparseable cells stay missing and are never
zero-filled. -/
theorem claim_C7_margin_sentinel :
    (∀ s, marginSentinel s = true → bc_margin_cell s = none) ∧
    (∀ s, marginSentinel s = false → bc_margin_cell s = parseNumQ s) := by
  constructor
  · intro s h
    unfold bc_margin_cell
    rw [h]
    simp
  · intro s h
    unfold bc_margin_cell
    rw [h]
    simp

/-- C7, witness: the sentinel value `"***.**"` maps to missing, and an
ordinary percent value parses numerically. -/
theorem claim_C7_margin_sentinel_witness :
    bc_margin_cell "***.**" = none ∧ bc_margin_cell "12.5" = some (mkRat 25 2) := by
  constructor
  · exact claim_C7_margin_sentinel.1 "***.**" (by decide)
  · rw [claim_C7_margin_sentinel.2 "12.5" (by decide)]
    decide

/-! ## Claim C3: the inventory join -/

theorem key_unique {l : List (String × Int)} (h : (l.map Prod.fst).Nodup)
    {p q : String × Int} (hp : p ∈ l) (hq : q ∈ l) (hk : p.1 = q.1) : p = q := by
  induction l with
  | nil => cases hp
  | cons a tl ih =>
    simp only [List.map_cons, List.nodup_cons] at h
    rcases List.mem_cons.mp hp with rfl | hp'
    · rcases List.mem_cons.mp hq with rfl | hq'
      · rfl
      · exact absurd (hk ▸ List.mem_map_of_mem Prod.fst hq') h.1
    · rcases List.mem_cons.mp hq with rfl | hq'
      · exact absurd (hk ▸ List.mem_map_of_mem Prod.fst hp') h.1
      · exact ih h.2 hp' hq'

theorem filter_key_of_not_mem {inv : List (String × Int)} {c : String}
    (h : c ∉ inv.map Prod.fst) : inv.filter (fun p => p.1 = c) = [] := by
  refine List.filter_eq_nil_iff.mpr (fun p hp => ?_)
  simp only [decide_eq_true_eq]
  intro hc
  exact h (hc ▸ List.mem_map_of_mem Prod.fst hp)

theorem joinInventory_eq_map_singleJoin (agg : List SalesAgg) (inv : List (String × Int))
    (hnd : (inv.map Prod.fst).Nodup) :
    joinInventory agg inv = agg.map (singleJoin inv) := by
  have one : ∀ a : SalesAgg,
      (match inv.filter (fun p => p.1 = a.code) with
        | [] => [(⟨a.code, a.qty, 0, (0 : ℚ) - a.qty⟩ : ReconRow)]
        | ms => ms.map (fun p => (⟨a.code, a.qty, p.2, (p.2 : ℚ) - a.qty⟩ : ReconRow))) =
      [singleJoin inv a] := by
    intro a
    induction inv with
    | nil => rfl
    | cons p rest ih =>
      simp only [List.map_cons, List.nodup_cons] at hnd
      by_cases hc : p.1 = a.code
      · have hrest : rest.filter (fun q => q.1 = a.code) = [] :=
          filter_key_of_not_mem (hc ▸ hnd.1)
        simp [List.filter_cons, singleJoin, List.find?, hc, hrest]
      · have hfind : List.find? (fun q => q.1 = a.code) (p :: rest) =
            List.find? (fun q => q.1 = a.code) rest := by
          simp [List.find?, hc]
        simp only [List.filter_cons, decide_eq_true_eq, if_neg hc]
        rw [ih hnd.2]
        simp [singleJoin, hfind]
  induction agg with
  | nil => rfl
  | cons a tl ih =>
    simp only [joinInventory, List.flatMap_cons, List.map_cons] at ih ⊢
    rw [one, ih]
    rfl

theorem joinInventory_diff (agg : List SalesAgg) (inv : List (String × Int)) :
    ∀ r ∈ joinInventory agg inv, r.diff = (r.onHand : ℚ) - r.qty := by
  intro r hr
  rcases List.mem_flatMap.mp hr with ⟨a, _, hra⟩
  revert hra
  cases hflt : inv.filter (fun p => p.1 = a.code) with
  | nil => intro hra; rcases List.mem_singleton.mp hra with rfl; simp
  | cons p ms =>
    intro hra
    rcases List.mem_map.mp hra with ⟨q, _, rfl⟩
    rfl

theorem singleJoin_absent {inv : List (String × Int)} {a : SalesAgg}
    (h : a.code ∉ inv.map Prod.fst) : (singleJoin inv a).onHand = 0 := by
  have hfind : inv.find? (fun p => p.1 = a.code) = none := by
    refine List.find?_eq_none.mpr (fun p hp => ?_)
    simp only [decide_eq_true_eq]
    intro hc
    exact h (hc ▸ List.mem_map_of_mem Prod.fst hp)
  simp [singleJoin, hfind]

theorem singleJoin_onHand_zero_iff {inv : List (String × Int)} {a : SalesAgg}
    (hnd : (inv.map Prod.fst).Nodup) :
    (singleJoin inv a).onHand = 0 ↔ a.code ∉ inv.map Prod.fst ∨ (a.code, 0) ∈ inv := by
  cases hfind : inv.find? (fun p => p.1 = a.code) with
  | none =>
    have habs : a.code ∉ inv.map Prod.fst := by
      intro hm
      rcases List.mem_map.mp hm with ⟨p, hp, hpc⟩
      exact absurd (by simpa using hpc) (by simpa using List.find?_eq_none.mp hfind p hp)
    simp [singleJoin, hfind, habs]
  | some p =>
    have hpc : p.1 = a.code := by simpa using List.find?_some hfind
    have hpm : p ∈ inv := List.mem_of_find?_eq_some hfind
    simp only [singleJoin, hfind]
    constructor
    · intro h0
      exact Or.inr (by
        have : p = (a.code, 0) := by
          cases p
          simp_all
        exact this ▸ hpm)
    · rintro (habs | hz)
      · exact absurd (hpc ▸ List.mem_map_of_mem Prod.fst hpm) habs
      · have : p = (a.code, 0) := key_unique hnd hpm hz (by simpa using hpc)
        rw [this]

/-- C3, counterexample.  The claim's biconditional — on-hand is 0 iff
the product code is absent from the snapshot — fails when the snapshot
carries the product with a stock quantity of 0 (a value the inventory
loader produces routinely): the joined on-hand is 0 yet the code is
present. -/
theorem claim_C3_counterexample :
    ¬ joinClaim [⟨"A100", 8⟩] [("A100", 0)] := by
  intro h
  have hmem := List.mem_cons_self
    (⟨"A100", 8, 0, ((0 : Int) : ℚ) - 8⟩ : ReconRow) []
  exact (h.2.1 _ hmem).mp rfl (by decide)

/-- C3, amended: with the snapshot's product codes unique (the
data-model invariant), every aggregate row yields exactly one
reconciled row (`joinInventory` is precisely a row-wise lookup);
`stock_difference = on_hand - total_quantity` always (and may be
negative); an absent code gets on-hand 0; and on-hand is 0 iff the
code is absent **or** the snapshot's stock for it is 0. -/
theorem claim_C3_amended (agg : List SalesAgg) (inv : List (String × Int))
    (hnd : (inv.map Prod.fst).Nodup) :
    joinInventory agg inv = agg.map (singleJoin inv) ∧
    (∀ r ∈ joinInventory agg inv, r.diff = (r.onHand : ℚ) - r.qty) ∧
    (∀ a ∈ agg, a.code ∉ inv.map Prod.fst → (singleJoin inv a).onHand = 0) ∧
    (∀ a ∈ agg, ((singleJoin inv a).onHand = 0 ↔
      a.code ∉ inv.map Prod.fst ∨ (a.code, 0) ∈ inv)) :=
  ⟨joinInventory_eq_map_singleJoin agg inv hnd,
   joinInventory_diff agg inv,
   fun _ _ h => singleJoin_absent h,
   fun _ _ => singleJoin_onHand_zero_iff hnd⟩

/-- C3, witness: a one-row aggregate joined against a disjoint
snapshot is the single-lookup map, and the unmatched row's on-hand is
zero-filled. -/
theorem claim_C3_amended_witness :
    joinInventory [⟨"A100", 8⟩] [("B200", 5)] =
      List.map (singleJoin [("B200", 5)]) [⟨"A100", 8⟩] ∧
    (singleJoin [("B200", 5)] (⟨"A100", 8⟩ : SalesAgg)).onHand = 0 :=
  ⟨(claim_C3_amended [⟨"A100", 8⟩] [("B200", 5)] (by decide)).1,
   (claim_C3_amended [⟨"A100", 8⟩] [("B200", 5)] (by decide)).2.2.1 _
     (List.mem_cons_self _ _) (by decide)⟩

/-! ## Claims C1, C8, C9: the product aggregator -/

theorem mem_dedupKeep {α : Type} [DecidableEq α] (a : α) (l : List α) :
    a ∈ dedupKeep l ↔ a ∈ l := by
  induction l with
  | nil => rfl
  | cons b t ih =>
    simp only [dedupKeep, List.mem_cons, List.mem_filter, ih]
    by_cases hab : a = b
    · simp [hab]
    · simp [hab]

theorem perm_insertBySub (r : AggRow) (l : List AggRow) : (insertBySub r l).Perm (r :: l) := by
  induction l with
  | nil => exact List.Perm.refl _
  | cons x xs ih =>
    unfold insertBySub
    by_cases h : r.subtotal.getD 0 ≤ x.subtotal.getD 0
    · rw [if_pos h]
      exact (ih.cons x).trans (List.Perm.swap r x xs)
    · rw [if_neg h]

theorem perm_sortBySubDesc (l : List AggRow) : (sortBySubDesc l).Perm l := by
  induction l with
  | nil => exact List.Perm.refl _
  | cons x xs ih =>
    exact (perm_insertBySub x (sortBySubDesc xs)).trans (ih.cons x)

theorem mem_sortBySubDesc (r : AggRow) (l : List AggRow) :
    r ∈ sortBySubDesc l ↔ r ∈ l :=
  (perm_sortBySubDesc l).mem_iff

theorem attachMonth_eq_entry (rows : List LineItem) (m : String) (r : AggRow) :
    attachMonth (month_agg rows m) m r =
      { r with monthCols := r.monthCols ++ [monthEntry rows r.code m] } := by
  unfold attachMonth monthEntry
  cases (month_agg rows m).find? (fun p => p.1 = r.code) <;> rfl

theorem attachMonths_eq (rows : List LineItem) (months : List String) (l : List AggRow) :
    attachMonths rows months l =
      l.map (fun r =>
        { r with monthCols := r.monthCols ++ months.map (fun m => monthEntry rows r.code m) }) := by
  induction months generalizing l with
  | nil =>
    have hid : (fun r : AggRow =>
        { r with monthCols := r.monthCols ++ List.map (fun m => monthEntry rows r.code m) [] }) =
        fun r => r := by
      funext r
      simp
    rw [attachMonths, List.foldl_nil, hid, List.map_id']
  | cons m ms ih =>
    show attachMonths rows ms (l.map (attachMonth (month_agg rows m) m)) = _
    rw [ih, List.map_map]
    apply List.map_congr_left
    intro r _
    simp only [Function.comp_apply, attachMonth_eq_entry]
    simp [List.append_assoc]

theorem find?_eq_self (l : List String) (c : String) :
    l.find? (fun x => x = c) = if c ∈ l then some c else none := by
  induction l with
  | nil => simp
  | cons a t ih =>
    by_cases hac : a = c
    · subst hac
      simp [List.find?]
    · have hca : ¬(c = a) := fun h => hac h.symm
      simp [List.find?, hac, hca, ih, List.mem_cons]

theorem find?_map_keyed {γ : Type} (l : List String) (g : String → γ) (c : String) :
    (l.map (fun x => (x, g x))).find? (fun p => p.1 = c) =
      (l.find? (fun x => x = c)).map (fun x => (x, g x)) := by
  induction l with
  | nil => rfl
  | cons a t ih =>
    by_cases hac : a = c
    · subst hac
      simp [List.find?]
    · simp [List.find?, hac, ih]

theorem monthEntry_eq (rows : List LineItem) (c m : String) :
    monthEntry rows c m =
      (m, sumOpt (monthRows rows c m) (fun r => r.qty),
        sumOpt (monthRows rows c m) (fun r => r.subtotal)) := by
  unfold monthEntry month_agg codesOf
  rw [find?_map_keyed, find?_eq_self]
  by_cases hc : c ∈ dedupKeep
      ((List.filter (fun r => r.month = m) rows).filterMap (fun r => r.code))
  · rw [if_pos hc]
    rfl
  · rw [if_neg hc]
    have hnil : monthRows rows c m = [] := by
      rw [mem_dedupKeep] at hc
      refine List.filter_eq_nil_iff.mpr (fun x hx => ?_)
      simp only [decide_eq_true_eq]
      intro hxc
      exact hc (List.mem_filterMap.mpr ⟨x, hx, hxc⟩)
    rw [hnil]
    rfl

theorem baseAgg_map_code (inp : SalesInput) (pf : Option (String → Bool)) :
    (baseAgg inp pf).map (fun r => r.code) = codesOf (filteredRows inp pf) := by
  rw [baseAgg, List.map_map]
  have : ((fun r : AggRow => r.code) ∘ mkAgg inp (filteredRows inp pf)) = fun c => c := by
    funext c
    rfl
  rw [this, List.map_id']

theorem sortedBase_perm (inp : SalesInput) (pf : Option (String → Bool)) :
    (sortedBase inp pf).Perm (baseAgg inp pf) := by
  unfold sortedBase
  by_cases h : inp.hasSubtotal = true
  · rw [if_pos (by simpa using h)]
    exact perm_sortBySubDesc _
  · rw [if_neg (by simpa using h)]

theorem mem_sortedBase (inp : SalesInput) (pf : Option (String → Bool)) (r : AggRow) :
    r ∈ sortedBase inp pf ↔ r ∈ baseAgg inp pf :=
  (sortedBase_perm inp pf).mem_iff

theorem get_product_summary_of_code_absent (inp : SalesInput)
    (pf : Option (String → Bool)) (mm : Bool) (hc : inp.hasCode = false) :
    get_product_summary inp pf mm = emptySummary := by
  rw [get_product_summary, hc]
  rfl

/-- C8: when the product-code column is absent, `get_product_summary`
does not raise and returns the empty summary: zero rows and the
canonical column set. -/
theorem claim_C8_missing_code (inp : SalesInput) (pf : Option (String → Bool))
    (mm : Bool) (hc : inp.hasCode = false) :
    get_product_summary inp pf mm = emptySummary ∧
    (get_product_summary inp pf mm).rows = [] ∧
    (get_product_summary inp pf mm).cols = canonicalCols := by
  have h := get_product_summary_of_code_absent inp pf mm hc
  exact ⟨h, by rw [h]; rfl, by rw [h]; rfl⟩

/-- C8, witness: a populated input whose code column is absent reduces
to the canonical empty summary. -/
theorem claim_C8_missing_code_witness :
    get_product_summary
      ⟨false, true, true, true, true, true, true, true,
        [⟨some "A100", some "W", some 3, some "PCS", some 100, some 300, some 200, "2025-01"⟩]⟩
      none false = emptySummary :=
  (claim_C8_missing_code _ none false rfl).1

theorem mkAgg_derived_spec (inp : SalesInput) (rows : List LineItem) (c : String)
    (q s : ℚ) (hq : (mkAgg inp rows c).qty = some q)
    (hs : (mkAgg inp rows c).subtotal = some s) :
    (0 < q → (mkAgg inp rows c).derived = s / q ∧ (mkAgg inp rows c).derived * q = s) ∧
    (q ≤ 0 → (mkAgg inp rows c).derived = 0) := by
  simp only [mkAgg] at hq hs ⊢
  by_cases h1 : inp.hasQty = true
  · rw [if_pos h1] at hq
    by_cases h2 : inp.hasSubtotal = true
    · rw [if_pos h2] at hs
      have hq' := Option.some.inj hq
      have hs' := Option.some.inj hs
      subst hq' hs'
      constructor
      · intro hpos
        have hcond : (inp.hasQty && inp.hasSubtotal &&
            decide (0 < sumOpt (rowsFor rows c) (fun r => r.qty))) = true := by
          rw [h1, h2, decide_eq_true hpos]
          rfl
        rw [hcond, if_pos rfl]
        exact ⟨rfl, div_mul_cancel₀ _ hpos.ne'⟩
      · intro hle
        have hcond : (inp.hasQty && inp.hasSubtotal &&
            decide (0 < sumOpt (rowsFor rows c) (fun r => r.qty))) = false := by
          rw [decide_eq_false (not_lt.mpr hle)]
          simp
        rw [hcond, if_neg Bool.false_ne_true]
    · rw [if_neg h2] at hs
      cases hs
  · rw [if_neg h1] at hq
    cases hq

/-- C1: in every product summary row carrying total quantity `q` and
total subtotal `s`, the derived unit price `單價（數量）` equals `s / q`
when `q > 0` (so that derived price times quantity gives back the
subtotal exactly, in this exact-rational model, hence within floating
tolerance), and is exactly the numeric value 0 (not null, not NaN)
when `q ≤ 0`. -/
theorem claim_C1_derived_price (inp : SalesInput) (pf : Option (String → Bool)) (mm : Bool)
    (r : AggRow) (q s : ℚ) (hr : r ∈ (get_product_summary inp pf mm).rows)
    (hq : r.qty = some q) (hs : r.subtotal = some s) :
    (0 < q → r.derived = s / q ∧ r.derived * q = s) ∧ (q ≤ 0 → r.derived = 0) := by
  by_cases hc : inp.hasCode = true
  · simp only [get_product_summary] at hr
    rw [if_pos hc] at hr
    simp only [] at hr
    rw [attachMonths_eq] at hr
    obtain ⟨r', hr', rfl⟩ := List.mem_map.mp hr
    rw [mem_sortedBase] at hr'
    unfold baseAgg at hr'
    obtain ⟨c, hcmem, rfl⟩ := List.mem_map.mp hr'
    exact mkAgg_derived_spec inp (filteredRows inp pf) c q s hq hs
  · have hcf : inp.hasCode = false := by
      revert hc
      cases inp.hasCode <;> simp
    rw [get_product_summary_of_code_absent inp pf mm hcf] at hr
    cases hr

-- C1, witness: two line items of product A100 with quantities 3 and
-- 5 and subtotals 300 and 500 aggregate to one row with quantity 8,
-- subtotal 800 and derived unit price satisfying derived times 8 = 800.
unseal Rat.add Rat.mul Rat.inv Rat.sub in
theorem claim_C1_derived_price_witness :
    (⟨"A100", some "W", some 8, some "PCS", some 100, some 800, some 0, 100, []⟩ : AggRow) ∈
      (get_product_summary
        ⟨true, true, true, true, true, true, true, true,
          [⟨some "A100", some "W", some 3, some "PCS", some 100, some 300, some 0, "m"⟩,
           ⟨some "A100", some "W", some 5, some "PCS", some 100, some 500, some 0, "m"⟩]⟩
        none false).rows ∧
    (⟨"A100", some "W", some 8, some "PCS", some 100, some 800, some 0, 100, []⟩ : AggRow).derived
      * 8 = 800 :=
  ⟨by decide,
   ((claim_C1_derived_price
      ⟨true, true, true, true, true, true, true, true,
        [⟨some "A100", some "W", some 3, some "PCS", some 100, some 300, some 0, "m"⟩,
         ⟨some "A100", some "W", some 5, some "PCS", some 100, some 500, some 0, "m"⟩]⟩
      none false
      ⟨"A100", some "W", some 8, some "PCS", some 100, some 800, some 0, 100, []⟩
      8 800 (by decide) rfl rfl).1 (by decide)).2⟩

theorem mkAgg_code (inp : SalesInput) (rows : List LineItem) (c : String) :
    (mkAgg inp rows c).code = c := rfl

theorem mkAgg_monthCols (inp : SalesInput) (rows : List LineItem) (c : String) :
    (mkAgg inp rows c).monthCols = [] := rfl

/-- C9: in multi-month mode (with code, quantity, subtotal and period
columns present), the per-period columns are attached by a left merge
keyed on product code against the overall aggregate, so the summary's
row set is exactly the distinct product codes of the filtered input
(every product of the overall aggregate is preserved); and every row
carries, for every period label, that product's summed quantity and
subtotal over that period — the empty sum 0 (not null) when the
product is absent from the period, the actual sums when present. -/
theorem claim_C9_multi_period (inp : SalesInput) (pf : Option (String → Bool))
    (hc : inp.hasCode = true) (hq : inp.hasQty = true) (hs : inp.hasSubtotal = true)
    (hm : inp.hasMonth = true) :
    ((get_product_summary inp pf true).rows.map (fun r => r.code)).Perm
      (codesOf (filteredRows inp pf)) ∧
    ∀ r ∈ (get_product_summary inp pf true).rows,
      r.monthCols =
        (dedupKeep ((filteredRows inp pf).map (fun x => x.month))).map
          (fun m =>
            (m, sumOpt (monthRows (filteredRows inp pf) r.code m) (fun x => x.qty),
              sumOpt (monthRows (filteredRows inp pf) r.code m) (fun x => x.subtotal))) := by
  have h1 : (get_product_summary inp pf true).rows =
      attachMonths (filteredRows inp pf) (monthsFor inp pf true) (sortedBase inp pf) := by
    simp only [get_product_summary]
    rw [if_pos hc]
  have h2 : monthsFor inp pf true =
      dedupKeep ((filteredRows inp pf).map (fun x => x.month)) := by
    unfold monthsFor
    rw [hm, hq, hs]
    simp
  have hmapcode : ∀ (rows : List LineItem) (months : List String) (l : List AggRow),
      (attachMonths rows months l).map (fun r => r.code) = l.map (fun r => r.code) := by
    intro rows months l
    rw [attachMonths_eq, List.map_map]
    rfl
  constructor
  · rw [h1, hmapcode]
    refine ((sortedBase_perm inp pf).map (fun r => r.code)).trans ?_
    rw [baseAgg_map_code]
  · intro r hr
    rw [h1, attachMonths_eq, h2] at hr
    obtain ⟨r', hr', rfl⟩ := List.mem_map.mp hr
    rw [mem_sortedBase] at hr'
    unfold baseAgg at hr'
    obtain ⟨c, hcmem, rfl⟩ := List.mem_map.mp hr'
    simp only [mkAgg_code, mkAgg_monthCols, List.nil_append]
    exact List.map_congr_left (fun m _ => monthEntry_eq (filteredRows inp pf) c m)

-- C9, witness: product A100 sells in period 2025-01 only; in the
-- two-period summary its row carries (3, 300) for 2025-01 and the
-- zero-filled pair (0, 0) for 2025-02.
unseal Rat.add Rat.mul Rat.inv Rat.sub in
theorem claim_C9_multi_period_witness :
    (⟨"A100", some "W", some 3, some "U", some 100, some 300, some 0, 100,
        [("2025-01", 3, 300), ("2025-02", 0, 0)]⟩ : AggRow) ∈
      (get_product_summary
        ⟨true, true, true, true, true, true, true, true,
          [⟨some "A100", some "W", some 3, some "U", some 100, some 300, some 0, "2025-01"⟩,
           ⟨some "B200", some "X", some 1, some "U", some 100, some 100, some 0, "2025-02"⟩]⟩
        none true).rows ∧
    (⟨"A100", some "W", some 3, some "U", some 100, some 300, some 0, 100,
        [("2025-01", 3, 300), ("2025-02", 0, 0)]⟩ : AggRow).monthCols =
      [("2025-01", (3 : ℚ), (300 : ℚ)), ("2025-02", 0, 0)] :=
  ⟨by decide,
   ((claim_C9_multi_period
      ⟨true, true, true, true, true, true, true, true,
        [⟨some "A100", some "W", some 3, some "U", some 100, some 300, some 0, "2025-01"⟩,
         ⟨some "B200", some "X", some 1, some "U", some 100, some 100, some 0, "2025-02"⟩]⟩
      none rfl rfl rfl rfl).2
      ⟨"A100", some "W", some 3, some "U", some 100, some 300, some 0, 100,
        [("2025-01", 3, 300), ("2025-02", 0, 0)]⟩ (by decide)).trans (by decide)⟩
